import Mathlib

/-!
Verification of the metadata-CSV generator `Metadata_creation.py`.

The Python module is embedded shallowly: directory entries, row dicts and
parsed CLI values become Lean structures, each function of the module becomes
a Lean function over them, and exceptions become `Except`/`Option` results.
Line numbers in the comments refer to `src/Metadata_creation.py`.
-/

/-- Kind of a directory entry, as distinguished by the stat calls that
`pathlib.Path.is_file` consults. -/
inductive EntryKind where
  | regularFile
  | directory
  | symlinkToFile
  | symlinkToDir
  | brokenSymlink
  | special
deriving DecidableEq, Repr

/-- Model of `pathlib.Path.is_file()`, which follows symbolic links: it is
true for a regular file and also for a symlink resolving to a regular file;
false for directories, symlinks to directories, broken symlinks and special
files. -/
def pyIsFile : EntryKind → Bool
  | .regularFile => true
  | .symlinkToFile => true
  | _ => false

/-- Index of the last occurrence of `c` in `cs` (Python `str.rfind`),
`none` when absent. -/
def pyRfind (cs : List Char) (c : Char) : Option Nat :=
  match cs.reverse.findIdx? (fun x => x == c) with
  | some j => some (cs.length - 1 - j)
  | none => none

/-- Model of `PurePath.suffix` on a final path component: the part of the
name from its last dot on, provided that dot is neither the first nor the
last character; otherwise the empty string. -/
def pySuffix (name : String) : String :=
  let cs := name.toList
  match pyRfind cs '.' with
  | some i => if 0 < i && i < cs.length - 1 then String.mk (cs.drop i) else ""
  | none => ""

/-- Model of `PurePath.stem`: the name up to its last dot under the same
proviso as `pySuffix`, else the whole name. -/
def pyStem (name : String) : String :=
  let cs := name.toList
  match pyRfind cs '.' with
  | some i => if 0 < i && i < cs.length - 1 then String.mk (cs.take i) else name
  | none => name

/-- One entry of the scanned tree.  `path` is the list of components relative
to the base directory; the remaining fields record what the OS calls made on
this entry return: `resolvedPath` models `str(p.resolve())`, `statSize` the
`st_size` from `p.stat()` (absent when stat raises), `mutagenLength` the
usable length the general mutagen probe would report for this file (absent
when the probe would yield none), and `waveData` the `(getnframes,
getframerate)` pair when `wave.open` succeeds on the file. -/
structure FSEntry where
  path : List String
  kind : EntryKind
  resolvedPath : String
  statSize : Option Nat
  mutagenLength : Option ℚ
  waveData : Option (Nat × Nat)
deriving DecidableEq, Repr

/-- Model of `p.name`: the final path component. -/
def fileName (e : FSEntry) : String := (e.path.getLast?).getD ""

/-- The path string of an entry relative to the base directory.  Sorting by
this string agrees with sorting the absolute `Path` objects, since all of
them share the base directory as a common prefix. -/
def joinPath (p : List String) : String := String.intercalate "/" p

/-- Model of `str.lower()` (restricted to ASCII, which covers every string
the claims touch). -/
def pyLower (s : String) : String := String.mk (s.toList.map Char.toLower)

/-- Model of `e.startswith(".")`: the first character is a dot. -/
def startsDot (s : String) : Bool :=
  match s.toList with
  | [] => false
  | c :: _ => c == '.'

/-- Line 48: each supplied extension entry is lowercased and given a leading
dot unless it already has one. -/
def normExt (e : String) : String :=
  if startsDot e then pyLower e else "." ++ pyLower e

/-- Lines 47 and 56 test `if exts:` with Python truthiness: `None` and the
empty list are both false, so no filter is active for them; otherwise the
normalised entries form the filter set. -/
def activeExts (exts : Option (List String)) : Option (List String) :=
  match exts with
  | some [] => none
  | some l => some (l.map normExt)
  | none => none

/-- Body of the loop of `scan_directory` (lines 54-60): keep an entry when
`p.is_file()` holds and, if a filter is active, its lowercased suffix is in
the normalised set. -/
def keepEntry (extSet : Option (List String)) (e : FSEntry) : Bool :=
  pyIsFile e.kind &&
    match extSet with
    | some s => s.contains (pyLower (pySuffix (fileName e)))
    | none => true

/-- Lexicographic order on character lists by code point, which is how
Python compares strings. -/
def lexLe : List Char → List Char → Bool
  | [], _ => true
  | _ :: _, [] => false
  | a :: as, b :: bs => if a == b then lexLe as bs else decide (a < b)

/-- Comparison used by `sorted(files)`: `Path` objects compare by their path
strings, and with the base directory a common prefix this is the order of
the relative path strings. -/
def entryLe (a b : FSEntry) : Prop :=
  lexLe (joinPath a.path).toList (joinPath b.path).toList = true

instance : DecidableRel entryLe := fun a b =>
  inferInstanceAs
    (Decidable (lexLe (joinPath a.path).toList (joinPath b.path).toList = true))

/-- Model of `scan_directory` (lines 46-61).  `entries` is the full subtree
that `base.rglob("*")` yields; non-recursive mode (`base.iterdir()`) sees
only the entries whose relative path has a single component.  The kept
entries are returned sorted by path (`sorted` is a stable comparison sort,
modelled by insertion sort). -/
def scan_directory (entries : List FSEntry) (exts : Option (List String))
    (recursive : Bool) : List FSEntry :=
  let it := if recursive then entries else entries.filter (fun e => e.path.length == 1)
  List.insertionSort entryLe (it.filter (keepEntry (activeExts exts)))

/-- A Python value as it occurs in a row dict or CSV cell. -/
inductive PyVal where
  | none
  | str (s : String)
  | int (n : Nat)
  | float (q : ℚ)
deriving DecidableEq, Repr

/-- A Python dict with string keys: an insertion-ordered association list. -/
abbrev Dict := List (String × PyVal)

/-- Membership test `k in d`. -/
def dictHas (d : Dict) (k : String) : Bool := d.any (fun p => p.1 == k)

/-- Model of `d[k] = v`: update in place when the key exists, else append. -/
def dictSet (d : Dict) (k : String) (v : PyVal) : Dict :=
  if dictHas d k then d.map (fun p => if p.1 == k then (k, v) else p)
  else d ++ [(k, v)]

/-- Model of `d.setdefault(k, v)` and of `if k not in d: d[k] = v`. -/
def dictSetdefault (d : Dict) (k : String) (v : PyVal) : Dict :=
  if dictHas d k then d else d ++ [(k, v)]

/-- Model of `d.get(k)`: the value at the first (unique) matching key. -/
def dictGet (d : Dict) (k : String) : Option PyVal :=
  (d.find? (fun p => p.1 == k)).map (fun p => p.2)

/-- The keys of a dict, in insertion order. -/
def dictKeys (d : Dict) : List String := d.map (fun p => p.1)

/-- A possibly absent string value as stored in a row. -/
def optStr : Option String → PyVal
  | some s => .str s
  | none => .none

/-- A possibly absent integer value as stored in a row. -/
def optNat : Option Nat → PyVal
  | some n => .int n
  | none => .none

/-- A possibly absent numeric duration as stored in a row. -/
def optRat : Option ℚ → PyVal
  | some q => .float q
  | none => .none

/-- Serialisation of one cell by `csv.writer`: `None` becomes the empty
cell; numeric formatting is abbreviated to `toString`, which no claim
depends on. -/
def renderCell : PyVal → String
  | .none => ""
  | .str s => s
  | .int n => toString n
  | .float q => toString q

/-- Model of `get_duration_seconds` (lines 23-43).  The first branch calls
`MutagenFile(str(path))`, but the name `MutagenFile` is never imported or
defined anywhere in the module, so the call raises `NameError`, which the
bare `except Exception: pass` swallows: the general probe contributes
nothing.  Control then always falls to the WAV fallback: when the lowercased
suffix is `.wav` and `wave.open` succeeds, a positive framerate yields
`frames / framerate`; in every other case (non-wav suffix, `wave.open`
failure, zero framerate) the function returns `None`. -/
def get_duration_seconds (f : FSEntry) : Option ℚ :=
  if pyLower (pySuffix (fileName f)) == ".wav" then
    match f.waveData with
    | some (frames, framerate) =>
        if framerate > 0 then some ((frames : ℚ) / (framerate : ℚ)) else none
    | none => none
  else none

/-- Modelled from the spec: the intended `get_duration_seconds`, in which the
general audio-metadata probe (the external mutagen reader, whose import the
source module is missing) is attempted first and its usable length returned,
with the WAV fallback only when the probe yields no usable length. -/
def get_duration_seconds_intended (f : FSEntry) : Option ℚ :=
  match f.mutagenLength with
  | some len => some len
  | none => get_duration_seconds f

/-- Decimal digits of `n`, most significant first, by fuelled structural
recursion (the fuel `n + 1` always suffices). -/
def natDigitsAux : Nat → Nat → List Char
  | 0, _ => []
  | fuel + 1, n =>
      if n < 10 then [Nat.digitChar n]
      else natDigitsAux fuel (n / 10) ++ [Nat.digitChar (n % 10)]

/-- Decimal representation of a natural number, as Python `str(i)`. -/
def natRepr (n : Nat) : String := String.mk (natDigitsAux (n + 1) n)

/-- The token column name `f"token_{i}"` of lines 128 and 134. -/
def tok (i : Nat) : String := "token_" ++ natRepr i

/-- Numeric value of one decimal digit character. -/
def decDigit (c : Char) : Nat := c.toNat - 48

/-- Decoder of a decimal digit string, used to prove `natRepr` injective. -/
def decValue (cs : List Char) : Nat :=
  cs.foldl (fun acc c => 10 * acc + decDigit c) 0

/-- A compiled pattern as the `re` module presents it: `groupNames` is the
list of declared named groups (the keys of `regex.groupindex`, in declaration
order) and `run stem` is the result of `regex.match(stem)` — `none` when the
pattern, anchored at the start of the stem, does not match, otherwise
`groupdict()` as an ordered list of pairs of group name and captured text
(`none` for a declared group that did not participate in the match). -/
structure PyRegex where
  groupNames : List String
  run : String → Option (List (String × Option String))

/-- The `re` module guarantees that group names are distinct and that
`groupdict()` has exactly the declared group names as keys, in declaration
order. -/
def PyRegex.Wf (rx : PyRegex) : Prop :=
  rx.groupNames.Nodup ∧
    ∀ s gd, rx.run s = some gd → gd.map Prod.fst = rx.groupNames

/-- The values `main` reads off the parsed arguments (lines 67-72 and 85-87).
`regex` is `some rx` exactly when `args.regex` is a non-empty string (the
truthiness test `bool(args.regex)` of line 85) that compiles to `rx`;
`delimiter` is the literal `--delimiter` value, `some ""` included, since
line 87 tests `args.delimiter is not None`. -/
structure Args where
  output : String
  regex : Option PyRegex
  delimiter : Option String
  exts : Option (List String)
  no_recursive : Bool
  skip_duration : Bool

/-- Line 87: `use_split = (args.delimiter is not None) and not use_regex`. -/
def useSplit (a : Args) : Bool := a.delimiter.isSome && a.regex.isNone

/-- Line 143: the fixed column prefix. -/
def baseCols : List String :=
  ["filepath", "filename", "name", "ext", "size_bytes", "duration_seconds"]

/-- Lines 137-140: the regex group names, when a regex is in use. -/
def extraCols (a : Args) : List String :=
  match a.regex with
  | some rx => rx.groupNames
  | none => []

/-- Line 134: `token_1 .. token_max` when split mode is in use. -/
def tokenCols (a : Args) (maxTokens : Nat) : List String :=
  if useSplit a then (List.range maxTokens).map (fun i => tok (i + 1)) else []

/-- Line 144: the fieldnames, in stable order. -/
def fieldnames (a : Args) (maxTokens : Nat) : List String :=
  baseCols ++ extraCols a ++ tokenCols a maxTokens

/-- Lines 92-113: the six fixed attributes of a file, with a failed stat and
an undetermined duration recorded as `None`, and the duration probe skipped
entirely under `--skip-duration`. -/
def baseRow (a : Args) (f : FSEntry) : Dict :=
  [("filepath", .str f.resolvedPath),
   ("filename", .str (fileName f)),
   ("name", .str (pyStem (fileName f))),
   ("ext", .str (pyLower (pySuffix (fileName f)))),
   ("size_bytes", optNat f.statSize),
   ("duration_seconds",
     if a.skip_duration then .none else optRat (get_duration_seconds f))]

/-- Lines 127-128: `for i, t in enumerate(tokens, start=1): row[tok i] = t`. -/
def addTokens (row : Dict) (i : Nat) (ts : List String) : Dict :=
  match ts with
  | [] => row
  | t :: rest => addTokens (dictSet row (tok i) (.str t)) (i + 1) rest

/-- Splitting scan of Python `str.split(sep)` for a non-empty separator:
walk the characters left to right, cutting at each leftmost occurrence of
the separator; `cur` holds the characters of the current piece in reverse.
Structural recursion on a fuel that the caller sizes to the input. -/
def pySplitAux (sep : List Char) : Nat → List Char → List Char → List (List Char)
  | 0, cs, cur => [cur.reverse ++ cs]
  | fuel + 1, cs, cur =>
      match cs with
      | [] => [cur.reverse]
      | c :: rest =>
          if sep.isPrefixOf (c :: rest) then
            cur.reverse :: pySplitAux sep fuel (List.drop sep.length (c :: rest)) []
          else pySplitAux sep fuel rest (c :: cur)

/-- The token list `s.split(sep)` produces for a non-empty separator (in
particular, splitting the empty string yields one empty token). -/
def pyTokens (s sep : String) : List String :=
  (pySplitAux sep.toList (s.toList.length + 1) s.toList []).map String.mk

/-- Python `str.split(sep)` with an explicit separator: raises `ValueError`
when the separator is empty, otherwise yields the token list. -/
def pySplit (s sep : String) : Except String (List String) :=
  if sep = "" then .error "ValueError: empty separator"
  else .ok (pyTokens s sep)

/-- One iteration of the `for p in files` loop (lines 92-131): build the base
row, then apply regex parsing (lines 115-123), token splitting (lines
124-128) or nothing.  Returns the row together with `len(tokens)` (0 outside
split mode) for the `max_tokens` update of line 126. -/
def buildRow (a : Args) (f : FSEntry) : Except String (Dict × Nat) :=
  let row := baseRow a f
  match a.regex with
  | some rx =>
      match rx.run (pyStem (fileName f)) with
      | some gd =>
          .ok (gd.foldl (fun r kv => dictSet r kv.1 (optStr kv.2)) row, 0)
      | none =>
          .ok (rx.groupNames.foldl (fun r g => dictSetdefault r g .none) row, 0)
  | none =>
      match a.delimiter with
      | some d =>
          match pySplit (pyStem (fileName f)) d with
          | .ok ts => .ok (addTokens row 1 ts, ts.length)
          | .error e => .error e
      | none => .ok (row, 0)

/-- Lines 89-131: process the files in order, collecting the rows and the
running `max_tokens` (the sequential `max` updates compute the maximum token
count over all files).  An uncaught exception — the empty-separator
`ValueError` — propagates out of the loop. -/
def processFiles (a : Args) : List FSEntry → Except String (List Dict × Nat)
  | [] => .ok ([], 0)
  | f :: rest =>
      match buildRow a f with
      | .error e => .error e
      | .ok (row, tk) =>
          match processFiles a rest with
          | .error e => .error e
          | .ok (rows, mt) => .ok (row :: rows, Nat.max tk mt)

/-- Lines 147-150: give every row every fieldname, filling gaps with `None`. -/
def normalizeRow (fns : List String) (r : Dict) : Dict :=
  fns.foldl (fun r c => dictSetdefault r c .none) r

/-- Model of `csv.DictWriter.writerow`: raises `ValueError` when the row has
a key outside the fieldnames, else emits `rowdict.get(key, None)` for each
fieldname in order. -/
def writerow (fns : List String) (r : Dict) : Except String (List PyVal) :=
  if r.any (fun p => !(fns.contains p.1)) then
    .error "ValueError: dict contains fields not in fieldnames"
  else .ok (fns.map (fun c => (dictGet r c).getD .none))

/-- The environment of one invocation: whether the input directory exists
and is a directory (line 76), the subtree under it, and whether opening and
writing the output file raises (`some exc`) or succeeds (`none`). -/
structure World where
  dirOk : Bool
  entries : List FSEntry
  writeError : Option String

/-- The three fatal diagnostics, each printed to stderr before `sys.exit(1)`:
line 77 (input directory missing or not a directory), line 82 (no file
found), line 162 (CSV write failure, with the exception text). -/
inductive Fatal where
  | badInputDir
  | noFiles
  | writeFailure (exc : String)
deriving DecidableEq, Repr

/-- Outcome of `main` past argument parsing: a diagnostic on stderr followed
by `sys.exit(1)`; an uncaught exception (traceback, exit status 1); or
success — the message of line 160 on stdout (with `resolve()` abstracted to
the given output path) and the CSV contents, header row first. -/
inductive RunResult where
  | fatal (d : Fatal)
  | crash (exc : String)
  | success (stdoutMsg : String) (csv : List (List PyVal))
deriving DecidableEq, Repr

/-- Lines 75-163 of `main`, given the parsed argument values: validate the
input directory, scan, fail on an empty scan, build the rows, derive the
fieldnames, normalise every row, and write header plus rows, any write
failure being fatal. -/
def run (a : Args) (w : World) : RunResult :=
  if !w.dirOk then .fatal .badInputDir
  else
    let files := scan_directory w.entries a.exts (!a.no_recursive)
    if files.isEmpty then .fatal .noFiles
    else
      match processFiles a files with
      | .error e => .crash e
      | .ok (rows, maxTokens) =>
          let fns := fieldnames a maxTokens
          let nrows := rows.map (normalizeRow fns)
          match w.writeError with
          | some exc => .fatal (.writeFailure exc)
          | none =>
              match nrows.mapM (writerow fns) with
              | .error e => .fatal (.writeFailure e)
              | .ok body => .success ("CSV écrit: " ++ a.output) ((fns.map PyVal.str) :: body)

/-- The name under which line 66 registers the positional argument: a pasted
Windows path (two adjacent string literals, the second empty; the backslash
sequences are not recognised escapes, so the backslashes are literal).
argparse derives the attribute dest from this name unchanged. -/
def positionalArgName : String :=
  "C:/Users/augus/OneDrive/Documents/Cours/ACO/M2/Machine Learning\\Projet chat\\DeepMeows\\dataset"

/-- The attribute names present on the parsed-arguments namespace: the
positional under its registered name and each option under the dest derived
from its long flag (lines 66-72). -/
def argDests : List String :=
  [positionalArgName, "output", "regex", "delimiter", "exts",
   "no_recursive", "skip_duration"]

/-- Outcome of the whole `main` (lines 64-163): line 75 reads
`args.input_dir`, and when that attribute is absent from the namespace the
lookup raises `AttributeError`, which nothing catches. -/
inductive ProgramResult where
  | attributeError
  | ran (r : RunResult)
deriving DecidableEq, Repr

/-- The whole `main`: argument parsing succeeds (storing the positional
under `positionalArgName`), then line 75 looks up the attribute
`input_dir`. -/
def programMain (a : Args) (w : World) : ProgramResult :=
  if argDests.contains "input_dir" then .ran (run a w) else .attributeError

/-! Concrete sample data used by counterexamples and witnesses. -/

/-- A plain regular file directly under the base directory. -/
def sampleFile (name : String) : FSEntry :=
  { path := [name], kind := .regularFile, resolvedPath := "/base/" ++ name,
    statSize := some 100, mutagenLength := none, waveData := none }

/-- An mp3 file for which the general metadata probe would report a usable
length of 120 seconds. -/
def mp3Sample : FSEntry :=
  { path := ["song.mp3"], kind := .regularFile, resolvedPath := "/music/song.mp3",
    statSize := some 4096, mutagenLength := some 120, waveData := none }

/-- A wav file with no general-metadata length but valid frame data:
88200 frames at 44100 frames per second. -/
def wavSample : FSEntry :=
  { path := ["take1.wav"], kind := .regularFile, resolvedPath := "/base/take1.wav",
    statSize := some 1764044, mutagenLength := none, waveData := some (88200, 44100) }

/-- A symbolic link, directly under the base directory, resolving to a
regular wav file. -/
def symlinkSample : FSEntry :=
  { path := ["link.wav"], kind := .symlinkToFile, resolvedPath := "/real/target.wav",
    statSize := some 50, mutagenLength := none, waveData := none }

/-- A regular file with an upper-case extension. -/
def eWAV : FSEntry := sampleFile "file.WAV"

/-- A regular file with a lower-case extension. -/
def ewav : FSEntry := sampleFile "file.wav"

/-- Stem `a_b_c`: three tokens under delimiter `_`. -/
def fABC : FSEntry := sampleFile "a_b_c.wav"

/-- Stem `x_y`: two tokens under delimiter `_`. -/
def fXY : FSEntry := sampleFile "x_y.wav"

/-- Stem `abc_12`, matched by `rxSujetAge`. -/
def fAbc12 : FSEntry := sampleFile "abc_12.wav"

/-- Stem `zzz`, matched by no sample pattern. -/
def fZZZ : FSEntry := sampleFile "zzz.wav"

/-- Stem `data`, matched by `rxOverwrite`. -/
def fData : FSEntry := sampleFile "data.wav"

/-- A pattern declaring the single named group `filename` and matching no
stem. -/
def rxCollide : PyRegex :=
  { groupNames := ["filename"], run := fun _ => none }

/-- A pattern declaring the single named group `filename` and matching
exactly the stem `data`, capturing it whole. -/
def rxOverwrite : PyRegex :=
  { groupNames := ["filename"],
    run := fun s => if s == "data" then some [("filename", some "data")] else none }

/-- A pattern with named groups `sujet` and `age` matching exactly the stem
`abc_12`, like the regex of the usage example applied to that stem. -/
def rxSujetAge : PyRegex :=
  { groupNames := ["sujet", "age"],
    run := fun s =>
      if s == "abc_12" then some [("sujet", some "abc"), ("age", some "12")]
      else none }

/-- Parsed arguments for token-split mode with delimiter `_`. -/
def argsTok : Args :=
  { output := "metadata.csv", regex := none, delimiter := some "_",
    exts := none, no_recursive := false, skip_duration := true }

/-- Parsed arguments for token-split mode with the empty delimiter. -/
def argsTokEmpty : Args :=
  { output := "metadata.csv", regex := none, delimiter := some "",
    exts := none, no_recursive := false, skip_duration := true }

/-- Parsed arguments for regex mode with `rxCollide`, a delimiter also
supplied. -/
def argsRxCollide : Args :=
  { output := "metadata.csv", regex := some rxCollide, delimiter := some "_",
    exts := none, no_recursive := false, skip_duration := true }

/-- Parsed arguments for regex mode with `rxOverwrite`. -/
def argsRxOverwrite : Args :=
  { output := "metadata.csv", regex := some rxOverwrite, delimiter := none,
    exts := none, no_recursive := false, skip_duration := true }

/-- Parsed arguments for regex mode with `rxSujetAge`, a delimiter also
supplied. -/
def argsRxSujetAge : Args :=
  { output := "metadata.csv", regex := some rxSujetAge, delimiter := some "-",
    exts := none, no_recursive := false, skip_duration := true }

/-- A world with an existing input directory, the given subtree and a
writable output file. -/
def worldOf (es : List FSEntry) : World :=
  { dirOk := true, entries := es, writeError := none }


/-! Dictionary lemmas. -/

theorem dictHas_iff_mem (d : Dict) (k : String) :
    dictHas d k = true ↔ k ∈ dictKeys d := by
  simp [dictHas, dictKeys, List.any_eq_true]

theorem dictGet_isSome_iff (d : Dict) (k : String) :
    (dictGet d k).isSome = true ↔ k ∈ dictKeys d := by
  simp [dictGet, List.find?_isSome, dictKeys]

theorem dictGet_eq_none_iff (d : Dict) (k : String) :
    dictGet d k = none ↔ k ∉ dictKeys d := by
  rw [← Option.not_isSome_iff_eq_none]
  exact not_congr (dictGet_isSome_iff d k)

theorem dictGet_cons (p : String × PyVal) (d : Dict) (k : String) :
    dictGet (p :: d) k = if p.1 = k then some p.2 else dictGet d k := by
  by_cases h : p.1 = k
  · rw [dictGet, List.find?_cons_of_pos _ (by simp [h]), if_pos h]
    rfl
  · rw [dictGet, List.find?_cons_of_neg _ (by simp [h]), if_neg h]
    rfl

theorem dictGet_singleton (k k' : String) (v : PyVal) :
    dictGet [(k, v)] k' = if k' = k then some v else none := by
  rw [dictGet_cons]
  by_cases h : k' = k
  · simp [h]
  · rw [if_neg (fun e => h e.symm), if_neg h]
    rfl

theorem dictGet_append (d₁ d₂ : Dict) (k : String) :
    dictGet (d₁ ++ d₂) k =
      match dictGet d₁ k with
      | some v => some v
      | none => dictGet d₂ k := by
  induction d₁ with
  | nil => simp [dictGet]
  | cons p d ih =>
      rw [List.cons_append, dictGet_cons, dictGet_cons]
      by_cases h : p.1 = k
      · simp [h]
      · simp [h, ih]

theorem dictHas_cons (p : String × PyVal) (d : Dict) (k : String) :
    dictHas (p :: d) k = ((p.1 == k) || dictHas d k) := by
  simp [dictHas]

theorem mapUpdate_get_ne (d : Dict) (k k' : String) (v : PyVal) (h : k' ≠ k) :
    dictGet (d.map (fun p => if p.1 == k then (k, v) else p)) k' = dictGet d k' := by
  induction d with
  | nil => rfl
  | cons p d ih =>
      rw [List.map_cons]
      by_cases hp : p.1 = k
      · rw [show (if (p.1 == k) = true then (k, v) else p) = (k, v) by simp [hp],
          dictGet_cons, dictGet_cons]
        rw [if_neg (by simpa using fun e => h e.symm), if_neg (by rw [hp]; exact fun e => h e.symm)]
        exact ih
      · rw [show (if (p.1 == k) = true then (k, v) else p) = p by simp [hp],
          dictGet_cons, dictGet_cons]
        by_cases hc : p.1 = k'
        · rw [if_pos hc, if_pos hc]
        · rw [if_neg hc, if_neg hc]
          exact ih

theorem mapUpdate_get_self (d : Dict) (k : String) (v : PyVal) (h : dictHas d k = true) :
    dictGet (d.map (fun p => if p.1 == k then (k, v) else p)) k = some v := by
  induction d with
  | nil => simp [dictHas] at h
  | cons p d ih =>
      rw [List.map_cons]
      by_cases hp : p.1 = k
      · rw [show (if (p.1 == k) = true then (k, v) else p) = (k, v) by simp [hp], dictGet_cons]
        simp
      · rw [show (if (p.1 == k) = true then (k, v) else p) = p by simp [hp], dictGet_cons,
          if_neg hp]
        apply ih
        rw [dictHas_cons] at h
        simpa [hp] using h

theorem dictGet_dictSet_self (d : Dict) (k : String) (v : PyVal) :
    dictGet (dictSet d k v) k = some v := by
  unfold dictSet
  by_cases h : dictHas d k
  · rw [if_pos h]
    exact mapUpdate_get_self d k v h
  · rw [if_neg h, dictGet_append]
    have hn : dictGet d k = none := by
      rw [dictGet_eq_none_iff]
      intro hk
      exact h ((dictHas_iff_mem d k).mpr hk)
    rw [hn, dictGet_singleton, if_pos rfl]

theorem dictGet_dictSet_ne (d : Dict) (k k' : String) (v : PyVal) (h : k' ≠ k) :
    dictGet (dictSet d k v) k' = dictGet d k' := by
  unfold dictSet
  by_cases hh : dictHas d k
  · rw [if_pos hh]
    exact mapUpdate_get_ne d k k' v h
  · rw [if_neg hh, dictGet_append, dictGet_singleton, if_neg h]
    cases hg : dictGet d k' <;> rfl

theorem dictKeys_append (d₁ d₂ : Dict) :
    dictKeys (d₁ ++ d₂) = dictKeys d₁ ++ dictKeys d₂ := by
  simp [dictKeys]

theorem dictKeys_dictSet (d : Dict) (k : String) (v : PyVal) :
    dictKeys (dictSet d k v) =
      if dictHas d k then dictKeys d else dictKeys d ++ [k] := by
  unfold dictSet
  by_cases h : dictHas d k
  · rw [if_pos h, if_pos h]
    simp only [dictKeys, List.map_map]
    apply List.map_congr_left
    intro p _
    by_cases hp : p.1 = k
    · simp [hp]
    · simp [hp]
  · rw [if_neg h, if_neg h, dictKeys_append]
    rfl

theorem dictKeys_dictSetdefault (d : Dict) (k : String) (v : PyVal) :
    dictKeys (dictSetdefault d k v) =
      if dictHas d k then dictKeys d else dictKeys d ++ [k] := by
  unfold dictSetdefault
  by_cases h : dictHas d k
  · rw [if_pos h, if_pos h]
  · rw [if_neg h, if_neg h, dictKeys_append]
    rfl

theorem dictGet_dictSetdefault (d : Dict) (k k' : String) (v : PyVal) :
    dictGet (dictSetdefault d k v) k' =
      match dictGet d k' with
      | some w => some w
      | none => if k' = k then some v else none := by
  unfold dictSetdefault
  by_cases h : dictHas d k
  · rw [if_pos h]
    cases hg : dictGet d k' with
    | some w => simp
    | none =>
        by_cases hk : k' = k
        · subst hk
          rw [dictGet_eq_none_iff] at hg
          exact absurd ((dictHas_iff_mem d k').mp h) hg
        · simp [hk]
  · rw [if_neg h, dictGet_append]
    cases hg : dictGet d k' with
    | some w => simp
    | none => rw [dictGet_singleton]

/-! Normalisation and writer lemmas. -/

theorem dictGet_normalizeRow (fns : List String) (r : Dict) (c : String) :
    dictGet (normalizeRow fns r) c =
      match dictGet r c with
      | some w => some w
      | none => if c ∈ fns then some PyVal.none else none := by
  induction fns generalizing r with
  | nil =>
      cases hg : dictGet r c <;> simp [normalizeRow, hg]
  | cons f fns ih =>
      simp only [normalizeRow] at ih ⊢
      rw [List.foldl_cons, ih (dictSetdefault r f PyVal.none), dictGet_dictSetdefault]
      by_cases hc : c = f
      · subst hc
        cases hg : dictGet r c <;> simp
      · cases hg : dictGet r c <;> simp [hc]

theorem mem_dictKeys_normalizeRow (fns : List String) (r : Dict) (c : String) :
    c ∈ dictKeys (normalizeRow fns r) ↔ c ∈ dictKeys r ∨ c ∈ fns := by
  rw [← dictGet_isSome_iff, dictGet_normalizeRow]
  cases hg : dictGet r c
  · rw [dictGet_eq_none_iff] at hg
    by_cases hc : c ∈ fns <;> simp [hc, hg]
  · have : c ∈ dictKeys r := by
      rw [← dictGet_isSome_iff, hg]
      rfl
    simp [this]

theorem writerow_ok (fns : List String) (r : Dict)
    (h : ∀ c ∈ dictKeys r, c ∈ fns) :
    writerow fns r = .ok (fns.map (fun c => (dictGet r c).getD .none)) := by
  have hc : (r.any (fun p => !(fns.contains p.1))) = false := by
    rw [List.any_eq_false]
    intro p hp
    have hm : p.1 ∈ fns := h p.1 (List.mem_map.mpr ⟨p, hp, rfl⟩)
    simpa using hm
  unfold writerow
  rw [hc]
  simp

/-! Decimal representation and token-name lemmas. -/

theorem decValue_append (cs : List Char) (c : Char) :
    decValue (cs ++ [c]) = 10 * decValue cs + decDigit c := by
  simp [decValue, List.foldl_append]

theorem decDigit_digitChar (n : Nat) (h : n < 10) :
    decDigit (Nat.digitChar n) = n := by
  interval_cases n <;> decide

theorem decValue_natDigitsAux (fuel n : Nat) (h : n < fuel) :
    decValue (natDigitsAux fuel n) = n := by
  induction fuel generalizing n with
  | zero => omega
  | succ fuel ih =>
      rw [natDigitsAux]
      by_cases h10 : n < 10
      · rw [if_pos h10]
        have := decDigit_digitChar n h10
        simp [decValue, this]
      · rw [if_neg h10, decValue_append]
        have hdiv : n / 10 < fuel := by
          have h1 : n / 10 < n := Nat.div_lt_self (by omega) (by omega)
          omega
        rw [ih (n / 10) hdiv, decDigit_digitChar (n % 10) (Nat.mod_lt n (by omega))]
        omega

theorem tok_injective (i j : Nat) (h : tok i = tok j) : i = j := by
  have hd : "token_".data ++ natDigitsAux (i + 1) i =
      "token_".data ++ natDigitsAux (j + 1) j := congrArg String.data h
  have hdd := List.append_cancel_left hd
  have h1 := decValue_natDigitsAux (i + 1) i (by omega)
  have h2 := decValue_natDigitsAux (j + 1) j (by omega)
  rw [hdd] at h1
  exact h1.symm.trans h2

theorem tok_ne_baseCols (i : Nat) (c : String) (hc : c ∈ baseCols) : tok i ≠ c := by
  intro h
  have hh : (tok i).data.head? = some 't' := by
    have : (tok i).data = 't' :: ("oken_".data ++ natDigitsAux (i + 1) i) := rfl
    rw [this]
    rfl
  simp only [baseCols, List.mem_cons, List.not_mem_nil, or_false] at hc
  rcases hc with rfl | rfl | rfl | rfl | rfl | rfl <;>
    (rw [h] at hh; exact absurd hh (by decide))

/-! Token insertion lemmas. -/

theorem dictGet_addTokens_other (row : Dict) (i : Nat) (ts : List String) (k : String)
    (h : ∀ j, j < ts.length → k ≠ tok (i + j)) :
    dictGet (addTokens row i ts) k = dictGet row k := by
  induction ts generalizing row i with
  | nil => rfl
  | cons t rest ih =>
      rw [addTokens]
      rw [ih (dictSet row (tok i) (.str t)) (i + 1) ?_]
      · exact dictGet_dictSet_ne _ _ _ _ (by simpa using h 0 (by simp))
      · intro j hj
        have hx := h (j + 1) (by simpa using Nat.succ_lt_succ hj)
        have e : i + (j + 1) = i + 1 + j := by omega
        rw [e] at hx
        exact hx

theorem dictGet_addTokens_get (row : Dict) (i : Nat) (ts : List String) (j : Nat)
    (hj : j < ts.length) :
    dictGet (addTokens row i ts) (tok (i + j)) = some (.str (ts.get ⟨j, hj⟩)) := by
  induction ts generalizing row i j with
  | nil => simp at hj
  | cons t rest ih =>
      rw [addTokens]
      cases j with
      | zero =>
          rw [dictGet_addTokens_other]
          · simpa using dictGet_dictSet_self row (tok i) (.str t)
          · intro j hj'
            intro he
            have := tok_injective _ _ he
            omega
      | succ j' =>
          have e : i + (j' + 1) = (i + 1) + j' := by omega
          rw [e]
          have hx := ih (dictSet row (tok i) (.str t)) (i + 1) j' (by simpa using hj)
          simpa using hx

theorem dictKeys_addTokens_subset (row : Dict) (i : Nat) (ts : List String) (c : String)
    (hc : c ∈ dictKeys (addTokens row i ts)) :
    c ∈ dictKeys row ∨ ∃ j, j < ts.length ∧ c = tok (i + j) := by
  induction ts generalizing row i with
  | nil => exact Or.inl hc
  | cons t rest ih =>
      rw [addTokens] at hc
      rcases ih (dictSet row (tok i) (.str t)) (i + 1) hc with h | ⟨j, hj, rfl⟩
      · rw [dictKeys_dictSet] at h
        by_cases hhas : dictHas row (tok i)
        · rw [if_pos hhas] at h
          exact Or.inl h
        · rw [if_neg hhas] at h
          rcases List.mem_append.mp h with h | h
          · exact Or.inl h
          · right
            refine ⟨0, by simp, ?_⟩
            simpa using List.mem_singleton.mp h
      · right
        exact ⟨j + 1, by simpa using Nat.succ_lt_succ hj,
          by rw [show i + (j + 1) = i + 1 + j by omega]⟩

/-! Further setdefault lemmas. -/

theorem dictGet_dictSetdefault_ne (d : Dict) (k k' : String) (v : PyVal) (h : k' ≠ k) :
    dictGet (dictSetdefault d k v) k' = dictGet d k' := by
  rw [dictGet_dictSetdefault]
  cases dictGet d k' <;> simp [h]

theorem dictGet_dictSetdefault_self (d : Dict) (k : String) (v : PyVal) :
    dictGet (dictSetdefault d k v) k = some ((dictGet d k).getD v) := by
  rw [dictGet_dictSetdefault]
  cases h : dictGet d k <;> simp

/-! Lemmas about the two parse folds of `buildRow`. -/

theorem dictGet_foldl_dictSet_other (gd : List (String × Option String)) (row : Dict)
    (k : String) (h : k ∉ gd.map Prod.fst) :
    dictGet (gd.foldl (fun r kv => dictSet r kv.1 (optStr kv.2)) row) k = dictGet row k := by
  induction gd generalizing row with
  | nil => rfl
  | cons kv gd ih =>
      rw [List.foldl_cons]
      rw [ih (dictSet row kv.1 (optStr kv.2)) (fun hm => h (by simp [hm]))]
      exact dictGet_dictSet_ne _ _ _ _ (fun e => h (by simp [e]))

theorem dictGet_foldl_dictSet_mem (gd : List (String × Option String)) (row : Dict)
    (hnd : (gd.map Prod.fst).Nodup) (k : String) (v : Option String) (hkv : (k, v) ∈ gd) :
    dictGet (gd.foldl (fun r kv => dictSet r kv.1 (optStr kv.2)) row) k = some (optStr v) := by
  induction gd generalizing row with
  | nil => simp at hkv
  | cons kv gd ih =>
      rw [List.foldl_cons]
      rcases List.mem_cons.mp hkv with heq | hmem
      · have hk : kv.1 = k := by rw [← heq]
        have hv : kv.2 = v := by rw [← heq]
        have hnot : k ∉ gd.map Prod.fst := by
          rw [← hk]
          exact (List.nodup_cons.mp (by simpa using hnd)).1
        rw [dictGet_foldl_dictSet_other gd _ k hnot, ← hk, ← hv]
        exact dictGet_dictSet_self _ _ _
      · exact ih (dictSet row kv.1 (optStr kv.2)) (List.nodup_cons.mp (by simpa using hnd)).2 hmem

theorem dictKeys_foldl_dictSet (gd : List (String × Option String)) (row : Dict)
    (c : String)
    (hc : c ∈ dictKeys (gd.foldl (fun r kv => dictSet r kv.1 (optStr kv.2)) row)) :
    c ∈ dictKeys row ∨ c ∈ gd.map Prod.fst := by
  induction gd generalizing row with
  | nil => exact Or.inl hc
  | cons kv gd ih =>
      rw [List.foldl_cons] at hc
      rcases ih (dictSet row kv.1 (optStr kv.2)) hc with h | h
      · rw [dictKeys_dictSet] at h
        by_cases hh : dictHas row kv.1
        · rw [if_pos hh] at h
          exact Or.inl h
        · rw [if_neg hh] at h
          rcases List.mem_append.mp h with h | h
          · exact Or.inl h
          · right
            simp [List.mem_singleton.mp h]
      · right
        simp [h]

theorem dictGet_foldl_setdefault_other (gs : List String) (row : Dict) (k : String)
    (h : k ∉ gs) :
    dictGet (gs.foldl (fun r g => dictSetdefault r g PyVal.none) row) k = dictGet row k := by
  induction gs generalizing row with
  | nil => rfl
  | cons g gs ih =>
      rw [List.foldl_cons, ih _ (fun hm => h (by simp [hm]))]
      exact dictGet_dictSetdefault_ne _ _ _ _ (fun e => h (by simp [e]))

theorem dictGet_foldl_setdefault_mem (gs : List String) (row : Dict) (g : String)
    (hnd : gs.Nodup) (hg : g ∈ gs) :
    dictGet (gs.foldl (fun r g => dictSetdefault r g PyVal.none) row) g =
      some ((dictGet row g).getD PyVal.none) := by
  induction gs generalizing row with
  | nil => simp at hg
  | cons g0 gs ih =>
      rw [List.foldl_cons]
      rcases List.mem_cons.mp hg with heq | hmem
      · subst heq
        rw [dictGet_foldl_setdefault_other gs _ g (List.nodup_cons.mp hnd).1]
        exact dictGet_dictSetdefault_self _ _ _
      · have hne : g ≠ g0 := by
          intro e
          subst e
          exact (List.nodup_cons.mp hnd).1 hmem
        rw [ih _ (List.nodup_cons.mp hnd).2 hmem, dictGet_dictSetdefault_ne _ _ _ _ hne]

theorem dictKeys_foldl_setdefault (gs : List String) (row : Dict) (c : String)
    (hc : c ∈ dictKeys (gs.foldl (fun r g => dictSetdefault r g PyVal.none) row)) :
    c ∈ dictKeys row ∨ c ∈ gs := by
  induction gs generalizing row with
  | nil => exact Or.inl hc
  | cons g gs ih =>
      rw [List.foldl_cons] at hc
      rcases ih (dictSetdefault row g PyVal.none) hc with h | h
      · rw [dictKeys_dictSetdefault] at h
        by_cases hh : dictHas row g
        · rw [if_pos hh] at h
          exact Or.inl h
        · rw [if_neg hh] at h
          rcases List.mem_append.mp h with h | h
          · exact Or.inl h
          · right
            simp [List.mem_singleton.mp h]
      · right
        simp [h]

/-! Base-row facts. -/

theorem dictKeys_baseRow (a : Args) (f : FSEntry) :
    dictKeys (baseRow a f) = baseCols := rfl

theorem dictGet_baseRow_size (a : Args) (f : FSEntry) :
    dictGet (baseRow a f) "size_bytes" = some (optNat f.statSize) := rfl

theorem dictGet_baseRow_duration (a : Args) (f : FSEntry) :
    dictGet (baseRow a f) "duration_seconds" =
      some (if a.skip_duration then .none else optRat (get_duration_seconds f)) := rfl

theorem dictGet_baseRow_filename (a : Args) (f : FSEntry) :
    dictGet (baseRow a f) "filename" = some (.str (fileName f)) := rfl

/-! Build-row case lemmas. -/

theorem buildRow_regex_match (a : Args) (rx : PyRegex) (hr : a.regex = some rx)
    (f : FSEntry) (gd : List (String × Option String))
    (hm : rx.run (pyStem (fileName f)) = some gd) :
    buildRow a f = .ok (gd.foldl (fun r kv => dictSet r kv.1 (optStr kv.2)) (baseRow a f), 0) := by
  simp [buildRow, hr, hm]

theorem buildRow_regex_nomatch (a : Args) (rx : PyRegex) (hr : a.regex = some rx)
    (f : FSEntry) (hm : rx.run (pyStem (fileName f)) = none) :
    buildRow a f =
      .ok (rx.groupNames.foldl (fun r g => dictSetdefault r g .none) (baseRow a f), 0) := by
  simp [buildRow, hr, hm]

theorem buildRow_split (a : Args) (d : String) (hr : a.regex = none)
    (hd : a.delimiter = some d) (hne : d ≠ "") (f : FSEntry) :
    buildRow a f = .ok
      (addTokens (baseRow a f) 1 (pyTokens (pyStem (fileName f)) d),
       (pyTokens (pyStem (fileName f)) d).length) := by
  simp [buildRow, pySplit, hr, hd, hne]

theorem buildRow_noparse (a : Args) (hr : a.regex = none) (hd : a.delimiter = none)
    (f : FSEntry) :
    buildRow a f = .ok (baseRow a f, 0) := by
  unfold buildRow
  rw [hr, hd]

theorem buildRow_empty_delim (a : Args) (hr : a.regex = none) (hd : a.delimiter = some "")
    (f : FSEntry) :
    buildRow a f = .error "ValueError: empty separator" := by
  simp [buildRow, pySplit, hr, hd]

theorem buildRow_ok (a : Args) (h : ∀ d, a.delimiter = some d → d ≠ "") (f : FSEntry) :
    ∃ row tk, buildRow a f = .ok (row, tk) := by
  cases hr : a.regex with
  | some rx =>
      cases hm : rx.run (pyStem (fileName f)) with
      | some gd => exact ⟨_, _, buildRow_regex_match a rx hr f gd hm⟩
      | none => exact ⟨_, _, buildRow_regex_nomatch a rx hr f hm⟩
  | none =>
      cases hd : a.delimiter with
      | some d => exact ⟨_, _, buildRow_split a d hr hd (h d hd) f⟩
      | none => exact ⟨_, _, buildRow_noparse a hr hd f⟩

theorem buildRow_keys (a : Args) (f : FSEntry) (row : Dict) (tk : Nat)
    (hwf : ∀ rx, a.regex = some rx → rx.Wf)
    (h : buildRow a f = .ok (row, tk)) :
    ∀ c ∈ dictKeys row,
      c ∈ baseCols ∨ c ∈ extraCols a ∨
        (useSplit a = true ∧ ∃ j, j < tk ∧ c = tok (1 + j)) := by
  intro c hc
  cases hr : a.regex with
  | some rx =>
      cases hm : rx.run (pyStem (fileName f)) with
      | some gd =>
          rw [buildRow_regex_match a rx hr f gd hm] at h
          have hrow : row = gd.foldl (fun r kv => dictSet r kv.1 (optStr kv.2)) (baseRow a f) := by
            injection h with h1
            injection h1 with h2 h3
            exact h2.symm
          subst hrow
          rcases dictKeys_foldl_dictSet gd (baseRow a f) c hc with hb | hg
          · left
            rwa [dictKeys_baseRow] at hb
          · right
            left
            rw [(hwf rx hr).2 _ _ hm] at hg
            simpa [extraCols, hr] using hg
      | none =>
          rw [buildRow_regex_nomatch a rx hr f hm] at h
          have hrow : row = rx.groupNames.foldl (fun r g => dictSetdefault r g .none) (baseRow a f) := by
            injection h with h1
            injection h1 with h2 h3
            exact h2.symm
          subst hrow
          rcases dictKeys_foldl_setdefault rx.groupNames (baseRow a f) c hc with hb | hg
          · left
            rwa [dictKeys_baseRow] at hb
          · right
            left
            simpa [extraCols, hr] using hg
  | none =>
      cases hd : a.delimiter with
      | some d =>
          by_cases hne : d = ""
          · subst hne
            rw [buildRow_empty_delim a hr hd f] at h
            exact absurd h (by simp)
          · rw [buildRow_split a d hr hd hne f] at h
            have hrow : row = addTokens (baseRow a f) 1 (pyTokens (pyStem (fileName f)) d) := by
              injection h with h1
              injection h1 with h2 h3
              exact h2.symm
            have htk : tk = (pyTokens (pyStem (fileName f)) d).length := by
              injection h with h1
              injection h1 with h2 h3
              exact h3.symm
            subst hrow
            rcases dictKeys_addTokens_subset _ _ _ c hc with hb | ⟨j, hj, rfl⟩
            · left
              rwa [dictKeys_baseRow] at hb
            · right
              right
              refine ⟨by simp [useSplit, hr, hd], j, by omega, rfl⟩
      | none =>
          rw [buildRow_noparse a hr hd f] at h
          have hrow : row = baseRow a f := by
            injection h with h1
            injection h1 with h2 h3
            exact h2.symm
          subst hrow
          left
          rwa [dictKeys_baseRow] at hc

theorem buildRow_tk_no_split (a : Args) (f : FSEntry) (row : Dict) (tk : Nat)
    (hs : useSplit a = false) (h : buildRow a f = .ok (row, tk)) : tk = 0 := by
  cases hr : a.regex with
  | some rx =>
      cases hm : rx.run (pyStem (fileName f)) with
      | some gd =>
          rw [buildRow_regex_match a rx hr f gd hm] at h
          injection h with h1
          injection h1 with h2 h3
          exact h3.symm
      | none =>
          rw [buildRow_regex_nomatch a rx hr f hm] at h
          injection h with h1
          injection h1 with h2 h3
          exact h3.symm
  | none =>
      cases hd : a.delimiter with
      | some d => simp [useSplit, hr, hd] at hs
      | none =>
          rw [buildRow_noparse a hr hd f] at h
          injection h with h1
          injection h1 with h2 h3
          exact h3.symm

/-! Loop lemmas. -/

theorem processFiles_nil (a : Args) : processFiles a [] = .ok ([], 0) := rfl

theorem processFiles_cons_inv (a : Args) (f : FSEntry) (rest : List FSEntry)
    (rows : List Dict) (mt : Nat) (h : processFiles a (f :: rest) = .ok (rows, mt)) :
    ∃ row tk rows' mt', buildRow a f = .ok (row, tk) ∧
      processFiles a rest = .ok (rows', mt') ∧
      rows = row :: rows' ∧ mt = Nat.max tk mt' := by
  rw [processFiles] at h
  cases hb : buildRow a f with
  | error e => rw [hb] at h; exact absurd h (by simp)
  | ok p =>
      obtain ⟨row, tk⟩ := p
      rw [hb] at h
      cases hp : processFiles a rest with
      | error e => rw [hp] at h; exact absurd h (by simp)
      | ok q =>
          obtain ⟨rows2, mt2⟩ := q
          rw [hp] at h
          refine ⟨row, tk, rows2, mt2, rfl, rfl, ?_, ?_⟩
          · injection h with h1
            injection h1 with h2 h3
            exact h2.symm
          · injection h with h1
            injection h1 with h2 h3
            exact h3.symm

theorem processFiles_ok (a : Args) (h : ∀ d, a.delimiter = some d → d ≠ "")
    (files : List FSEntry) :
    ∃ rows mt, processFiles a files = .ok (rows, mt) := by
  induction files with
  | nil => exact ⟨[], 0, rfl⟩
  | cons f rest ih =>
      obtain ⟨row, tk, hb⟩ := buildRow_ok a h f
      obtain ⟨rows, mt, hp⟩ := ih
      exact ⟨row :: rows, Nat.max tk mt, by rw [processFiles, hb, hp]⟩

theorem processFiles_length (a : Args) (files : List FSEntry) (rows : List Dict) (mt : Nat)
    (h : processFiles a files = .ok (rows, mt)) : rows.length = files.length := by
  induction files generalizing rows mt with
  | nil =>
      rw [processFiles_nil] at h
      injection h with h1
      injection h1 with h2 h3
      rw [← h2]
      rfl
  | cons f rest ih =>
      obtain ⟨row, tk, rows', mt', hb, hp, rfl, rfl⟩ := processFiles_cons_inv a f rest rows mt h
      simp [ih rows' mt' hp]

/-! Order lemmas for the path comparison. -/

theorem lexLe_trans (as bs cs : List Char) (h1 : lexLe as bs = true)
    (h2 : lexLe bs cs = true) : lexLe as cs = true := by
  induction as generalizing bs cs with
  | nil => rfl
  | cons a as ih =>
      cases bs with
      | nil => simp [lexLe] at h1
      | cons b bs =>
          cases cs with
          | nil => simp [lexLe] at h2
          | cons c cs =>
              rw [lexLe] at h1 h2 ⊢
              by_cases hab : a = b
              · subst hab
                rw [if_pos (by simp)] at h1
                by_cases hac : a = c
                · subst hac
                  rw [if_pos (by simp)] at h2 ⊢
                  exact ih bs cs h1 h2
                · rw [if_neg (by simpa using hac)] at h2 ⊢
                  exact h2
              · rw [if_neg (by simpa using hab)] at h1
                have hvab : a < b := of_decide_eq_true h1
                by_cases hbc : b = c
                · subst hbc
                  rw [if_neg (by simpa using hab)]
                  exact decide_eq_true hvab
                · rw [if_neg (by simpa using hbc)] at h2
                  have hvbc : b < c := of_decide_eq_true h2
                  have hvac : a < c := lt_trans hvab hvbc
                  have hac : ¬ a = c := by
                    intro e
                    subst e
                    exact absurd hvac (lt_irrefl _)
                  rw [if_neg (by simpa using hac)]
                  exact decide_eq_true hvac

theorem lexLe_total (as bs : List Char) : lexLe as bs = true ∨ lexLe bs as = true := by
  induction as generalizing bs with
  | nil => left; rfl
  | cons a as ih =>
      cases bs with
      | nil => right; rfl
      | cons b bs =>
          rw [lexLe, lexLe]
          by_cases hab : a = b
          · subst hab
            rw [if_pos (by simp), if_pos (by simp)]
            exact ih bs
          · rw [if_neg (by simpa using hab),
              if_neg (by simpa using fun e => hab (Eq.symm e))]
            rcases lt_or_gt_of_ne hab with h | h
            · left
              exact decide_eq_true h
            · right
              exact decide_eq_true h

/-! Scanner lemmas. -/

theorem mem_scan_directory (entries : List FSEntry) (exts : Option (List String))
    (recursive : Bool) (e : FSEntry) :
    e ∈ scan_directory entries exts recursive ↔
      e ∈ entries ∧ (recursive = false → e.path.length = 1) ∧
        keepEntry (activeExts exts) e = true := by
  unfold scan_directory
  rw [List.mem_insertionSort, List.mem_filter]
  cases recursive with
  | true => simp
  | false =>
      simp only [Bool.false_eq_true, if_false, List.mem_filter, beq_iff_eq]
      constructor
      · rintro ⟨⟨he, hl⟩, hk⟩
        exact ⟨he, fun _ => hl, hk⟩
      · rintro ⟨he, hl, hk⟩
        exact ⟨⟨he, hl trivial⟩, hk⟩

theorem scan_directory_sorted (entries : List FSEntry) (exts : Option (List String))
    (recursive : Bool) :
    (scan_directory entries exts recursive).Sorted entryLe := by
  haveI : IsTrans FSEntry entryLe :=
    ⟨fun a b c h1 h2 => lexLe_trans _ _ _ h1 h2⟩
  haveI : IsTotal FSEntry entryLe :=
    ⟨fun a b => lexLe_total _ _⟩
  exact List.sorted_insertionSort entryLe _

theorem scan_directory_nodup_paths (entries : List FSEntry) (exts : Option (List String))
    (recursive : Bool)
    (h : (entries.map (fun e => joinPath e.path)).Nodup) :
    ((scan_directory entries exts recursive).map (fun e => joinPath e.path)).Nodup := by
  unfold scan_directory
  have hperm := (List.perm_insertionSort entryLe
    (((if recursive then entries
        else entries.filter (fun e => e.path.length == 1))).filter
      (keepEntry (activeExts exts)))).map (fun e => joinPath e.path)
  rw [List.Perm.nodup_iff hperm]
  have hsub1 : ((if recursive then entries
      else entries.filter (fun e => e.path.length == 1)).filter
        (keepEntry (activeExts exts))).Sublist
      (if recursive then entries else entries.filter (fun e => e.path.length == 1)) :=
    List.filter_sublist _
  have hsub2 : (if recursive then entries
      else entries.filter (fun e => e.path.length == 1)).Sublist entries := by
    cases recursive with
    | true => simp
    | false =>
        simp only [Bool.false_eq_true, if_false]
        exact List.filter_sublist _
  exact List.Nodup.sublist ((hsub1.trans hsub2).map (fun e => joinPath e.path)) h

/-! Schema lemmas. -/

theorem tokenCols_mono (a : Args) (m m' : Nat) (h : m ≤ m') :
    tokenCols a m ⊆ tokenCols a m' := by
  unfold tokenCols
  by_cases hs : useSplit a
  · rw [if_pos hs, if_pos hs]
    exact List.map_subset _ (by simpa using List.range_subset.mpr h)
  · rw [if_neg hs, if_neg hs]
    exact fun c hc => hc

theorem fieldnames_mono (a : Args) (m m' : Nat) (h : m ≤ m') :
    fieldnames a m ⊆ fieldnames a m' := by
  unfold fieldnames
  intro c hc
  rcases List.mem_append.mp hc with hc | hc
  · exact List.mem_append.mpr (Or.inl hc)
  · exact List.mem_append.mpr (Or.inr (tokenCols_mono a m m' h hc))

theorem mem_fieldnames_of_case (a : Args) (mt : Nat) (c : String)
    (h : c ∈ baseCols ∨ c ∈ extraCols a ∨
      (useSplit a = true ∧ ∃ j, j < mt ∧ c = tok (1 + j))) :
    c ∈ fieldnames a mt := by
  unfold fieldnames
  rcases h with h | h | ⟨hs, j, hj, rfl⟩
  · exact List.mem_append.mpr (Or.inl (List.mem_append.mpr (Or.inl h)))
  · exact List.mem_append.mpr (Or.inl (List.mem_append.mpr (Or.inr h)))
  · refine List.mem_append.mpr (Or.inr ?_)
    unfold tokenCols
    rw [if_pos hs]
    refine List.mem_map.mpr ⟨j, List.mem_range.mpr hj, ?_⟩
    rw [Nat.add_comm]

theorem processFiles_keys (a : Args) (files : List FSEntry) (rows : List Dict) (mt : Nat)
    (hwf : ∀ rx, a.regex = some rx → rx.Wf)
    (h : processFiles a files = .ok (rows, mt)) :
    ∀ r ∈ rows, ∀ c ∈ dictKeys r, c ∈ fieldnames a mt := by
  induction files generalizing rows mt with
  | nil =>
      rw [processFiles_nil] at h
      injection h with h1
      injection h1 with h2 h3
      rw [← h2]
      intro r hr
      simp at hr
  | cons f rest ih =>
      obtain ⟨row, tk, rows', mt', hb, hp, rfl, rfl⟩ := processFiles_cons_inv a f rest rows mt h
      intro r hr c hc
      rcases List.mem_cons.mp hr with rfl | hr'
      · rcases buildRow_keys a f r tk hwf hb c hc with hcase | hcase | ⟨hs, j, hj, he⟩
        · exact mem_fieldnames_of_case a _ c (Or.inl hcase)
        · exact mem_fieldnames_of_case a _ c (Or.inr (Or.inl hcase))
        · exact mem_fieldnames_of_case a _ c
            (Or.inr (Or.inr ⟨hs, j, lt_of_lt_of_le hj (Nat.le_max_left tk mt'), he⟩))
      · exact fieldnames_mono a mt' _ (Nat.le_max_right tk mt') (ih rows' mt' hp r hr' c hc)

/-! Remaining helper lemmas. -/

theorem activeExts_some (l : List String) (h : l ≠ []) :
    activeExts (some l) = some (l.map normExt) := by
  cases l with
  | nil => exact absurd rfl h
  | cons x xs => rfl

theorem keepEntry_iff (ex : Option (List String)) (e : FSEntry) :
    keepEntry ex e = true ↔
      pyIsFile e.kind = true ∧
        ∀ l, ex = some l → pyLower (pySuffix (fileName e)) ∈ l := by
  unfold keepEntry
  cases ex with
  | none => simp
  | some s =>
      rw [Bool.and_eq_true]
      constructor
      · rintro ⟨h1, h2⟩
        refine ⟨h1, ?_⟩
        intro l hl
        injection hl with hl
        subst hl
        simpa using h2
      · rintro ⟨h1, h2⟩
        exact ⟨h1, by simpa using h2 s rfl⟩

theorem processFiles_split (a : Args) (d : String) (hr : a.regex = none)
    (hd : a.delimiter = some d) (hne : d ≠ "") (files : List FSEntry)
    (rows : List Dict) (mt : Nat) (h : processFiles a files = .ok (rows, mt)) :
    rows = files.map
        (fun f => addTokens (baseRow a f) 1 (pyTokens (pyStem (fileName f)) d)) ∧
    mt = (files.map (fun f => (pyTokens (pyStem (fileName f)) d).length)).foldr Nat.max 0 := by
  induction files generalizing rows mt with
  | nil =>
      rw [processFiles_nil] at h
      injection h with h1
      injection h1 with h2 h3
      exact ⟨h2.symm, h3.symm⟩
  | cons f rest ih =>
      obtain ⟨row, tk, rows', mt', hb, hp, rfl, rfl⟩ := processFiles_cons_inv a f rest rows mt h
      rw [buildRow_split a d hr hd hne f] at hb
      injection hb with h1
      injection h1 with h2 h3
      obtain ⟨ih1, ih2⟩ := ih rows' mt' hp
      constructor
      · rw [List.map_cons, ← h2, ih1]
      · rw [List.map_cons, List.foldr_cons, ← h3, ih2]

theorem le_foldr_max (l : List Nat) (x : Nat) (hx : x ∈ l) : x ≤ l.foldr Nat.max 0 := by
  induction l with
  | nil => simp at hx
  | cons y l ih =>
      rcases List.mem_cons.mp hx with rfl | hx'
      · exact Nat.le_max_left _ _
      · exact le_trans (ih hx') (Nat.le_max_right _ _)

theorem zip_map_self (l : List FSEntry) (g : FSEntry → Dict) (fr : FSEntry × Dict)
    (h : fr ∈ l.zip (l.map g)) : fr.1 ∈ l ∧ fr.2 = g fr.1 := by
  induction l with
  | nil => simp at h
  | cons x l ih =>
      rw [List.map_cons, List.zip_cons_cons] at h
      rcases List.mem_cons.mp h with rfl | hm
      · exact ⟨List.mem_cons_self _ _, rfl⟩
      · exact ⟨List.mem_cons.mpr (Or.inr (ih hm).1), (ih hm).2⟩

/-! The claims. -/

/-- C1: the claim states that every invocation with a valid input directory,
matching files and writable output exits 0, writes the CSV and prints the
success message.  The code cannot do this for any invocation: line 66
registers the positional argument under a pasted Windows path instead of
`input_dir`, so the read of `args.input_dir` on line 75 raises an uncaught
`AttributeError` before anything else runs, and the interpreter exits with a
traceback and a non-zero status. -/
theorem C1_startup_attribute_error (a : Args) (w : World) :
    programMain a w = ProgramResult.attributeError ∧
    ∀ msg csv, programMain a w ≠ ProgramResult.ran (RunResult.success msg csv) := by
  have h : "input_dir" ∉ argDests := by decide
  constructor
  · simp [programMain, h]
  · intro msg csv
    simp [programMain, h]

/-- C2: the claim states that the general audio-metadata probe is attempted
first and its usable length returned.  In the code the probe is dead: the
name `MutagenFile` is never imported, so line 26 raises `NameError` on every
call, the bare `except` swallows it, and a non-wav file with perfectly good
metadata (here an mp3 whose probe length would be 120 s) gets no duration at
all, while the spec-modelled intended function returns 120.  The WAV fallback
and the never-propagate behaviour do hold (last conjunct: 88200 frames at
44100 Hz give 2 s). -/
theorem C2_general_probe_dead :
    get_duration_seconds mp3Sample = none ∧
    mp3Sample.mutagenLength = some 120 ∧
    get_duration_seconds_intended mp3Sample = some 120 ∧
    get_duration_seconds wavSample = some 2 := by
  refine ⟨rfl, rfl, rfl, ?_⟩
  have h1 : get_duration_seconds wavSample =
      some (((88200 : Nat) : ℚ) / ((44100 : Nat) : ℚ)) := rfl
  rw [h1]
  norm_num

/-- C3 counterexample: the claim says symlinks are excluded by the scanner,
but `Path.is_file()` follows symlinks, so a symlink resolving to a regular
file is kept: scanning a directory whose only entry is such a symlink
returns it rather than the empty list. -/
theorem C3_counterexample :
    scan_directory [symlinkSample] none false = [symlinkSample] ∧
    symlinkSample.kind = EntryKind.symlinkToFile := by
  exact ⟨by decide, rfl⟩

/-- C3 amended: for every root (with distinct entry paths), extension set
(empty or absent meaning allow all) and recursive flag, the scanner returns
the path-sorted, duplicate-free list of those entries that `is_file` accepts
— regular files and symlinks resolving to regular files; directories,
symlinks to directories, broken symlinks and special files are excluded —
and that pass the extension filter; non-recursive mode sees only direct
children while recursive mode visits the full subtree. -/
theorem C3_amended_scan (entries : List FSEntry) (exts : Option (List String))
    (recursive : Bool)
    (hnd : (entries.map (fun e => joinPath e.path)).Nodup) :
    (scan_directory entries exts recursive).Sorted entryLe ∧
    ((scan_directory entries exts recursive).map (fun e => joinPath e.path)).Nodup ∧
    ∀ e, e ∈ scan_directory entries exts recursive ↔
      e ∈ entries ∧ (recursive = false → e.path.length = 1) ∧
        pyIsFile e.kind = true ∧
        ∀ l, activeExts exts = some l → pyLower (pySuffix (fileName e)) ∈ l := by
  refine ⟨scan_directory_sorted entries exts recursive,
    scan_directory_nodup_paths entries exts recursive hnd, ?_⟩
  intro e
  rw [mem_scan_directory, keepEntry_iff]

/-- Witness for C3 amended, at a two-file tree with a `wav` filter. -/
theorem C3_amended_scan_witness :
    ([ewav, eWAV].map (fun e => joinPath e.path)).Nodup ∧
    ((scan_directory [ewav, eWAV] (some ["wav"]) true).Sorted entryLe ∧
      ((scan_directory [ewav, eWAV] (some ["wav"]) true).map
        (fun e => joinPath e.path)).Nodup ∧
      ∀ e, e ∈ scan_directory [ewav, eWAV] (some ["wav"]) true ↔
        e ∈ [ewav, eWAV] ∧ (true = false → e.path.length = 1) ∧
          pyIsFile e.kind = true ∧
          ∀ l, activeExts (some ["wav"]) = some l →
            pyLower (pySuffix (fileName e)) ∈ l) :=
  ⟨by decide, C3_amended_scan [ewav, eWAV] (some ["wav"]) true (by decide)⟩

/-- C7: a file passes a non-empty extension filter exactly when its
lowercased suffix equals the dot-and-case-normalised form of one of the
filter entries; in particular the filter `wav` keeps both `file.WAV` and
`file.wav`. -/
theorem C7_extension_filter (entries : List FSEntry) (l : List String) (hne : l ≠ [])
    (recursive : Bool) (e : FSEntry) :
    (e ∈ scan_directory entries (some l) recursive ↔
      e ∈ entries ∧ (recursive = false → e.path.length = 1) ∧
        pyIsFile e.kind = true ∧
        ∃ x ∈ l, normExt x = pyLower (pySuffix (fileName e))) ∧
    scan_directory [eWAV, ewav] (some ["wav"]) true = [eWAV, ewav] := by
  constructor
  · rw [mem_scan_directory, keepEntry_iff]
    constructor
    · rintro ⟨h1, h2, h3, h4⟩
      have := h4 (l.map normExt) (activeExts_some l hne)
      obtain ⟨x, hx, hxe⟩ := List.mem_map.mp this
      exact ⟨h1, h2, h3, x, hx, hxe⟩
    · rintro ⟨h1, h2, h3, x, hx, hxe⟩
      refine ⟨h1, h2, h3, ?_⟩
      intro s hs
      rw [activeExts_some l hne] at hs
      injection hs with hs
      subst hs
      exact List.mem_map.mpr ⟨x, hx, hxe⟩
  · decide

/-- Witness for C7 at the upper-case sample file. -/
theorem C7_extension_filter_witness :
    (["wav"] : List String) ≠ [] ∧
    ((eWAV ∈ scan_directory [eWAV] (some ["wav"]) true ↔
      eWAV ∈ [eWAV] ∧ (true = false → eWAV.path.length = 1) ∧
        pyIsFile eWAV.kind = true ∧
        ∃ x ∈ ["wav"], normExt x = pyLower (pySuffix (fileName eWAV))) ∧
      scan_directory [eWAV, ewav] (some ["wav"]) true = [eWAV, ewav]) :=
  ⟨by decide, C7_extension_filter [eWAV] ["wav"] (by decide) true eWAV⟩

/-- C9: with a regex absent and the empty string supplied as delimiter, the
first loop iteration calls `"".split` on the stem, Python raises
`ValueError: empty separator`, nothing catches it, and the run aborts with a
traceback instead of producing token columns or one of the three stderr
diagnostics — the parse step is not total over delimiter values. -/
theorem C9_empty_delimiter_value_error (a : Args) (w : World)
    (hr : a.regex = none) (hd : a.delimiter = some "")
    (hdir : w.dirOk = true)
    (hne : scan_directory w.entries a.exts (!a.no_recursive) ≠ []) :
    run a w = RunResult.crash "ValueError: empty separator" := by
  obtain ⟨f, rest, hfiles⟩ := List.exists_cons_of_ne_nil hne
  have hpf : processFiles a (f :: rest) = .error "ValueError: empty separator" := by
    rw [processFiles, buildRow_empty_delim a hr hd f]
  simp [run, hdir, hfiles, hpf]

/-- Witness for C9: one file with stem `a_b_c`, delimiter `""`. -/
theorem C9_empty_delimiter_value_error_witness :
    argsTokEmpty.regex = none ∧ argsTokEmpty.delimiter = some "" ∧
    (worldOf [fABC]).dirOk = true ∧
    scan_directory (worldOf [fABC]).entries argsTokEmpty.exts
      (!argsTokEmpty.no_recursive) ≠ [] ∧
    run argsTokEmpty (worldOf [fABC]) = RunResult.crash "ValueError: empty separator" :=
  ⟨rfl, rfl, rfl, by decide,
    C9_empty_delimiter_value_error argsTokEmpty (worldOf [fABC]) rfl rfl rfl (by decide)⟩

/-- C5 counterexample: the claim asserts that on a non-matching stem every
declared named group is present with an absent value.  With the pattern
declaring the group `filename` (which collides with a base column) and the
non-matching stem `data`, line 123 uses `setdefault`, so the `filename`
column keeps the base value `data.wav` instead of being absent. -/
theorem C5_counterexample :
    argsRxCollide.regex = some rxCollide ∧
    argsRxCollide.delimiter = some "_" ∧
    rxCollide.run (pyStem (fileName fData)) = none ∧
    "filename" ∈ rxCollide.groupNames ∧
    buildRow argsRxCollide fData = .ok (baseRow argsRxCollide fData, 0) ∧
    dictGet (baseRow argsRxCollide fData) "filename" = some (PyVal.str "data.wav") ∧
    PyVal.str "data.wav" ≠ PyVal.none :=
  ⟨rfl, rfl, rfl, by decide, rfl, rfl, by decide⟩

/-- C5 amended: in regex mode (entered whenever `args.regex` is a non-empty
string, regardless of any delimiter, whose value is never consulted), the
compiled pattern is matched against the stem via `re.match`, which anchors
at the start.  On a match, every `groupdict()` pair becomes that column of
the row (captured text, or absent for a non-participating group).  On a
non-match, every declared group name is present in the row; its value is
absent unless the name collides with one of the six base columns, in which
case `setdefault` keeps the base value. -/
theorem C5_regex_mode (a : Args) (rx : PyRegex) (hr : a.regex = some rx)
    (hwf : rx.Wf) (f : FSEntry) :
    (∀ d, buildRow { a with delimiter := d } f = buildRow a f) ∧
    (∀ gd, rx.run (pyStem (fileName f)) = some gd →
      ∀ row tk, buildRow a f = .ok (row, tk) →
        ∀ k v, (k, v) ∈ gd → dictGet row k = some (optStr v)) ∧
    (rx.run (pyStem (fileName f)) = none →
      ∀ row tk, buildRow a f = .ok (row, tk) →
        ∀ g ∈ rx.groupNames,
          g ∈ dictKeys row ∧
          dictGet row g = some ((dictGet (baseRow a f) g).getD PyVal.none) ∧
          (g ∉ baseCols → dictGet row g = some PyVal.none)) := by
  refine ⟨?_, ?_, ?_⟩
  · intro d
    cases hm : rx.run (pyStem (fileName f)) with
    | some gd =>
        rw [buildRow_regex_match a rx hr f gd hm]
        exact buildRow_regex_match { a with delimiter := d } rx hr f gd hm
    | none =>
        rw [buildRow_regex_nomatch a rx hr f hm]
        exact buildRow_regex_nomatch { a with delimiter := d } rx hr f hm
  · intro gd hm row tk hb
    rw [buildRow_regex_match a rx hr f gd hm] at hb
    injection hb with h1
    injection h1 with h2 h3
    intro k v hkv
    rw [← h2]
    refine dictGet_foldl_dictSet_mem gd (baseRow a f) ?_ k v hkv
    rw [hwf.2 _ _ hm]
    exact hwf.1
  · intro hm row tk hb
    rw [buildRow_regex_nomatch a rx hr f hm] at hb
    injection hb with h1
    injection h1 with h2 h3
    intro g hg
    have hval := dictGet_foldl_setdefault_mem rx.groupNames (baseRow a f) g hwf.1 hg
    rw [← h2]
    refine ⟨?_, hval, ?_⟩
    · rw [← dictGet_isSome_iff, hval]
      rfl
    · intro hgb
      have hnone : dictGet (baseRow a f) g = none := by
        rw [dictGet_eq_none_iff, dictKeys_baseRow]
        exact hgb
      rw [hval, hnone]
      rfl

/-- Witness for C5 amended: the `sujet`/`age` pattern on the matching stem
`abc_12` puts the captured substrings in the two columns. -/
theorem C5_regex_mode_witness :
    argsRxSujetAge.regex = some rxSujetAge ∧
    rxSujetAge.Wf ∧
    dictGet
      [("filepath", PyVal.str "/base/abc_12.wav"),
       ("filename", PyVal.str "abc_12.wav"),
       ("name", PyVal.str "abc_12"),
       ("ext", PyVal.str ".wav"),
       ("size_bytes", PyVal.int 100),
       ("duration_seconds", PyVal.none),
       ("sujet", PyVal.str "abc"),
       ("age", PyVal.str "12")] "sujet" = some (PyVal.str "abc") ∧
    dictGet
      [("filepath", PyVal.str "/base/abc_12.wav"),
       ("filename", PyVal.str "abc_12.wav"),
       ("name", PyVal.str "abc_12"),
       ("ext", PyVal.str ".wav"),
       ("size_bytes", PyVal.int 100),
       ("duration_seconds", PyVal.none),
       ("sujet", PyVal.str "abc"),
       ("age", PyVal.str "12")] "age" = some (PyVal.str "12") := by
  have hwf : rxSujetAge.Wf := by
    constructor
    · decide
    · intro s gd h
      simp only [rxSujetAge] at h
      split at h
      · injection h with h1
        rw [← h1]
        rfl
      · exact absurd h (by simp)
  refine ⟨rfl, hwf, ?_, ?_⟩
  · exact (C5_regex_mode argsRxSujetAge rxSujetAge rfl hwf fAbc12).2.1
      [("sujet", some "abc"), ("age", some "12")] rfl
      [("filepath", PyVal.str "/base/abc_12.wav"),
       ("filename", PyVal.str "abc_12.wav"),
       ("name", PyVal.str "abc_12"),
       ("ext", PyVal.str ".wav"),
       ("size_bytes", PyVal.int 100),
       ("duration_seconds", PyVal.none),
       ("sujet", PyVal.str "abc"),
       ("age", PyVal.str "12")] 0 rfl "sujet" (some "abc") (by decide)
  · exact (C5_regex_mode argsRxSujetAge rxSujetAge rfl hwf fAbc12).2.1
      [("sujet", some "abc"), ("age", some "12")] rfl
      [("filepath", PyVal.str "/base/abc_12.wav"),
       ("filename", PyVal.str "abc_12.wav"),
       ("name", PyVal.str "abc_12"),
       ("ext", PyVal.str ".wav"),
       ("size_bytes", PyVal.int 100),
       ("duration_seconds", PyVal.none),
       ("sujet", PyVal.str "abc"),
       ("age", PyVal.str "12")] 0 rfl "age" (some "12") (by decide)

/-- C10: when the pattern declares a named group whose name is one of the six
base columns, a matching stem overwrites that base attribute with the
captured text (line 119 assigns into the row dict), and the colliding name
occurs twice in the header: once in the fixed prefix and once among the
regex-group columns. -/
theorem C10_group_collision (a : Args) (rx : PyRegex) (hr : a.regex = some rx)
    (hwf : rx.Wf) (f : FSEntry) (gd : List (String × Option String))
    (hm : rx.run (pyStem (fileName f)) = some gd)
    (c : String) (hc : c ∈ baseCols) (hg : c ∈ rx.groupNames)
    (s : String) (hcap : (c, some s) ∈ gd) :
    (∀ row tk, buildRow a f = .ok (row, tk) → dictGet row c = some (PyVal.str s)) ∧
    (∀ mt, (fieldnames a mt).count c = 2) := by
  constructor
  · intro row tk hb
    rw [buildRow_regex_match a rx hr f gd hm] at hb
    injection hb with h1
    injection h1 with h2 h3
    rw [← h2]
    have := dictGet_foldl_dictSet_mem gd (baseRow a f)
      (by rw [hwf.2 _ _ hm]; exact hwf.1) c (some s) hcap
    simpa [optStr] using this
  · intro mt
    unfold fieldnames
    rw [List.count_append, List.count_append]
    have h1 : baseCols.count c = 1 := by
      have hbnd : baseCols.Nodup := by decide
      exact List.count_eq_one_of_mem hbnd hc
    have h2 : (extraCols a).count c = 1 := by
      have : extraCols a = rx.groupNames := by
        simp [extraCols, hr]
      rw [this]
      exact List.count_eq_one_of_mem hwf.1 hg
    have h3 : (tokenCols a mt).count c = 0 := by
      have hs : useSplit a = false := by
        simp [useSplit, hr]
      unfold tokenCols
      rw [hs]
      simp
    rw [h1, h2, h3]

/-- Witness for C10: the pattern capturing the whole stem `data` into the
group `filename` overwrites the base `filename` value `data.wav` with
`data`, and the header contains `filename` twice. -/
theorem C10_group_collision_witness :
    argsRxOverwrite.regex = some rxOverwrite ∧
    rxOverwrite.Wf ∧
    ("filename" ∈ baseCols ∧ "filename" ∈ rxOverwrite.groupNames) ∧
    dictGet
      [("filepath", PyVal.str "/base/data.wav"),
       ("filename", PyVal.str "data"),
       ("name", PyVal.str "data"),
       ("ext", PyVal.str ".wav"),
       ("size_bytes", PyVal.int 100),
       ("duration_seconds", PyVal.none)] "filename" = some (PyVal.str "data") ∧
    (fieldnames argsRxOverwrite 0).count "filename" = 2 := by
  have hwf : rxOverwrite.Wf := by
    constructor
    · decide
    · intro s gd h
      simp only [rxOverwrite] at h
      split at h
      · injection h with h1
        rw [← h1]
        rfl
      · exact absurd h (by simp)
  refine ⟨rfl, hwf, ⟨by decide, by decide⟩, ?_, ?_⟩
  · exact (C10_group_collision argsRxOverwrite rxOverwrite rfl hwf fData
      [("filename", some "data")] rfl "filename" (by decide) (by decide)
      "data" (by decide)).1
      [("filepath", PyVal.str "/base/data.wav"),
       ("filename", PyVal.str "data"),
       ("name", PyVal.str "data"),
       ("ext", PyVal.str ".wav"),
       ("size_bytes", PyVal.int 100),
       ("duration_seconds", PyVal.none)] 0 rfl
  · exact (C10_group_collision argsRxOverwrite rxOverwrite rfl hwf fData
      [("filename", some "data")] rfl "filename" (by decide) (by decide)
      "data" (by decide)).2 0

/-- C6: in token-split mode (no regex, non-empty delimiter) each row gets
`token_i` equal to the i-th substring of its stem split on the delimiter;
the schema ends with exactly `token_1 .. token_K` where `K` is the maximum
token count over all files of the run; and after normalisation every row
with fewer than `K` tokens has its excess token columns absent. -/
theorem C6_token_split (a : Args) (d : String) (hr : a.regex = none)
    (hd : a.delimiter = some d) (hne : d ≠ "")
    (files : List FSEntry) (rows : List Dict) (mt : Nat)
    (h : processFiles a files = .ok (rows, mt)) :
    rows.length = files.length ∧
    fieldnames a mt = baseCols ++ (List.range mt).map (fun i => tok (i + 1)) ∧
    mt = (files.map (fun f => (pyTokens (pyStem (fileName f)) d).length)).foldr Nat.max 0 ∧
    ∀ fr ∈ files.zip rows,
      (∀ j (hj : j < (pyTokens (pyStem (fileName fr.1)) d).length),
          dictGet fr.2 (tok (1 + j)) =
            some (PyVal.str ((pyTokens (pyStem (fileName fr.1)) d).get ⟨j, hj⟩))) ∧
      ∀ j, (pyTokens (pyStem (fileName fr.1)) d).length ≤ j → j < mt →
          dictGet (normalizeRow (fieldnames a mt) fr.2) (tok (1 + j)) = some PyVal.none := by
  obtain ⟨hrows, hmt⟩ := processFiles_split a d hr hd hne files rows mt h
  have hs : useSplit a = true := by simp [useSplit, hr, hd]
  refine ⟨?_, ?_, hmt, ?_⟩
  · rw [hrows, List.length_map]
  · unfold fieldnames extraCols tokenCols
    rw [hr, hs]
    simp
  · intro fr hfr
    rw [hrows] at hfr
    obtain ⟨hmem, hfr2⟩ := zip_map_self files _ fr hfr
    constructor
    · intro j hj
      rw [hfr2]
      exact dictGet_addTokens_get (baseRow a fr.1) 1 (pyTokens (pyStem (fileName fr.1)) d) j hj
    · intro j hjlen hjmt
      rw [hfr2, dictGet_normalizeRow]
      have hother : dictGet
          (addTokens (baseRow a fr.1) 1 (pyTokens (pyStem (fileName fr.1)) d))
          (tok (1 + j)) = dictGet (baseRow a fr.1) (tok (1 + j)) := by
        refine dictGet_addTokens_other _ 1 _ _ ?_
        intro j' hj' he
        have := tok_injective _ _ he
        omega
      rw [hother]
      have hnone : dictGet (baseRow a fr.1) (tok (1 + j)) = none := by
        rw [dictGet_eq_none_iff, dictKeys_baseRow]
        intro hmem2
        exact tok_ne_baseCols (1 + j) _ hmem2 rfl
      rw [hnone]
      have hmemfn : tok (1 + j) ∈ fieldnames a mt :=
        mem_fieldnames_of_case a mt _ (Or.inr (Or.inr ⟨hs, j, hjmt, rfl⟩))
      rw [if_pos hmemfn]

/-- Witness for C6: stems `a_b_c` and `x_y` under delimiter `_` give the
schema `token_1 token_2 token_3`; the normalised second row has `token_3`
absent. -/
theorem C6_token_split_witness :
    argsTok.regex = none ∧ argsTok.delimiter = some "_" ∧ ("_" : String) ≠ "" ∧
    processFiles argsTok [fABC, fXY] = .ok
      ([[("filepath", PyVal.str "/base/a_b_c.wav"),
         ("filename", PyVal.str "a_b_c.wav"),
         ("name", PyVal.str "a_b_c"),
         ("ext", PyVal.str ".wav"),
         ("size_bytes", PyVal.int 100),
         ("duration_seconds", PyVal.none),
         ("token_1", PyVal.str "a"),
         ("token_2", PyVal.str "b"),
         ("token_3", PyVal.str "c")],
        [("filepath", PyVal.str "/base/x_y.wav"),
         ("filename", PyVal.str "x_y.wav"),
         ("name", PyVal.str "x_y"),
         ("ext", PyVal.str ".wav"),
         ("size_bytes", PyVal.int 100),
         ("duration_seconds", PyVal.none),
         ("token_1", PyVal.str "x"),
         ("token_2", PyVal.str "y")]], 3) ∧
    dictGet (normalizeRow (fieldnames argsTok 3)
      [("filepath", PyVal.str "/base/x_y.wav"),
       ("filename", PyVal.str "x_y.wav"),
       ("name", PyVal.str "x_y"),
       ("ext", PyVal.str ".wav"),
       ("size_bytes", PyVal.int 100),
       ("duration_seconds", PyVal.none),
       ("token_1", PyVal.str "x"),
       ("token_2", PyVal.str "y")]) (tok (1 + 2)) = some PyVal.none := by
  refine ⟨rfl, rfl, by decide, rfl, ?_⟩
  exact ((C6_token_split argsTok "_" rfl rfl (by decide) [fABC, fXY] _ 3 rfl).2.2.2
    (fXY,
      [("filepath", PyVal.str "/base/x_y.wav"),
       ("filename", PyVal.str "x_y.wav"),
       ("name", PyVal.str "x_y"),
       ("ext", PyVal.str ".wav"),
       ("size_bytes", PyVal.int 100),
       ("duration_seconds", PyVal.none),
       ("token_1", PyVal.str "x"),
       ("token_2", PyVal.str "y")]) (by decide)).2 2 (by decide) (by decide)

/-- C4: the written table is rectangular.  The header is the fixed prefix
`filepath, filename, name, ext, size_bytes, duration_seconds` followed by
the regex-group columns (exactly the declared group names, with no token
columns) when a regex is in use, or by `token_1..token_N` otherwise; every
normalised row carries exactly the schema column set; `DictWriter` accepts
it and emits one cell per schema column, `None` rendering as the empty
cell. -/
theorem C4_rectangular_table (a : Args)
    (hwf : ∀ rx, a.regex = some rx → rx.Wf)
    (files : List FSEntry) (rows : List Dict) (mt : Nat)
    (h : processFiles a files = .ok (rows, mt)) :
    fieldnames a mt = baseCols ++ extraCols a ++ tokenCols a mt ∧
    (∀ rx, a.regex = some rx → extraCols a = rx.groupNames ∧ tokenCols a mt = []) ∧
    (a.regex = none → extraCols a = []) ∧
    renderCell PyVal.none = "" ∧
    ∀ r ∈ rows,
      (∀ c, c ∈ dictKeys (normalizeRow (fieldnames a mt) r) ↔ c ∈ fieldnames a mt) ∧
      writerow (fieldnames a mt) (normalizeRow (fieldnames a mt) r) =
        .ok ((fieldnames a mt).map
          (fun c => (dictGet (normalizeRow (fieldnames a mt) r) c).getD PyVal.none)) := by
  have hkeys := processFiles_keys a files rows mt hwf h
  refine ⟨rfl, ?_, ?_, rfl, ?_⟩
  · intro rx hrx
    constructor
    · simp [extraCols, hrx]
    · have hs : useSplit a = false := by simp [useSplit, hrx]
      simp [tokenCols, hs]
  · intro hrx
    simp [extraCols, hrx]
  · intro r hr
    have hsub : ∀ c ∈ dictKeys r, c ∈ fieldnames a mt := hkeys r hr
    have hiff : ∀ c, c ∈ dictKeys (normalizeRow (fieldnames a mt) r) ↔
        c ∈ fieldnames a mt := by
      intro c
      rw [mem_dictKeys_normalizeRow]
      constructor
      · rintro (hc | hc)
        · exact hsub c hc
        · exact hc
      · exact Or.inr
    refine ⟨hiff, writerow_ok _ _ ?_⟩
    intro c hc
    exact (hiff c).mp hc

/-- Witness for C4, on the two-file token-split run. -/
theorem C4_rectangular_table_witness :
    (∀ rx, argsTok.regex = some rx → rx.Wf) ∧
    writerow (fieldnames argsTok 3) (normalizeRow (fieldnames argsTok 3)
      [("filepath", PyVal.str "/base/x_y.wav"),
       ("filename", PyVal.str "x_y.wav"),
       ("name", PyVal.str "x_y"),
       ("ext", PyVal.str ".wav"),
       ("size_bytes", PyVal.int 100),
       ("duration_seconds", PyVal.none),
       ("token_1", PyVal.str "x"),
       ("token_2", PyVal.str "y")]) =
      .ok ((fieldnames argsTok 3).map
        (fun c => (dictGet (normalizeRow (fieldnames argsTok 3)
          [("filepath", PyVal.str "/base/x_y.wav"),
           ("filename", PyVal.str "x_y.wav"),
           ("name", PyVal.str "x_y"),
           ("ext", PyVal.str ".wav"),
           ("size_bytes", PyVal.int 100),
           ("duration_seconds", PyVal.none),
           ("token_1", PyVal.str "x"),
           ("token_2", PyVal.str "y")]) c).getD PyVal.none)) := by
  have hwf : ∀ rx, argsTok.regex = some rx → rx.Wf := by
    intro rx h
    exact absurd h (by simp [argsTok])
  refine ⟨hwf, ?_⟩
  exact ((C4_rectangular_table argsTok hwf [fABC, fXY] _ 3 rfl).2.2.2.2
    [("filepath", PyVal.str "/base/x_y.wav"),
     ("filename", PyVal.str "x_y.wav"),
     ("name", PyVal.str "x_y"),
     ("ext", PyVal.str ".wav"),
     ("size_bytes", PyVal.int 100),
     ("duration_seconds", PyVal.none),
     ("token_1", PyVal.str "x"),
     ("token_2", PyVal.str "y")] (by decide)).2

/-- C8: the error taxonomy of `main` past argument parsing.  A missing or
non-directory input aborts with the line 77 diagnostic; an empty scan aborts
with the line 82 diagnostic before any CSV exists; per-file stat or
duration-probe failures are recorded as absent values and (for any delimiter
other than the empty string) the batch always completes; an output-write
failure aborts with the line 162 diagnostic. -/
theorem C8_error_taxonomy (a : Args) (w : World) :
    (w.dirOk = false → run a w = RunResult.fatal Fatal.badInputDir) ∧
    (w.dirOk = true → scan_directory w.entries a.exts (!a.no_recursive) = [] →
      run a w = RunResult.fatal Fatal.noFiles ∧
      ∀ msg csv, run a w ≠ RunResult.success msg csv) ∧
    ((∀ d, a.delimiter = some d → d ≠ "") →
      ∀ files, ∃ rows mt, processFiles a files = Except.ok (rows, mt)) ∧
    (∀ f, f.statSize = none → dictGet (baseRow a f) "size_bytes" = some PyVal.none) ∧
    (∀ f, get_duration_seconds f = none →
      dictGet (baseRow a f) "duration_seconds" = some PyVal.none) ∧
    (∀ exc, w.dirOk = true → w.writeError = some exc →
      scan_directory w.entries a.exts (!a.no_recursive) ≠ [] →
      (∀ d, a.delimiter = some d → d ≠ "") →
      run a w = RunResult.fatal (Fatal.writeFailure exc)) := by
  refine ⟨?_, ?_, ?_, ?_, ?_, ?_⟩
  · intro h
    simp [run, h]
  · intro hdir hscan
    constructor
    · simp [run, hdir, hscan]
    · intro msg csv
      simp [run, hdir, hscan]
  · intro hd files
    exact processFiles_ok a hd files
  · intro f h
    rw [dictGet_baseRow_size, h]
    rfl
  · intro f h
    rw [dictGet_baseRow_duration, h]
    cases a.skip_duration <;> rfl
  · intro exc hdir hwr hne hd
    obtain ⟨f, rest, hfiles⟩ := List.exists_cons_of_ne_nil hne
    obtain ⟨rows, mt, hpf⟩ := processFiles_ok a hd (f :: rest)
    simp [run, hdir, hfiles, hpf, hwr]

/-- Witness for C8 at concrete worlds: a missing directory, an empty tree, a
file whose stat fails, and a failing output write. -/
theorem C8_error_taxonomy_witness :
    run argsTok { dirOk := false, entries := [], writeError := none } =
      RunResult.fatal Fatal.badInputDir ∧
    run argsTok { dirOk := true, entries := [], writeError := none } =
      RunResult.fatal Fatal.noFiles ∧
    dictGet (baseRow argsTok
      { path := ["ghost.wav"], kind := EntryKind.regularFile,
        resolvedPath := "/base/ghost.wav", statSize := none,
        mutagenLength := none, waveData := none }) "size_bytes" = some PyVal.none ∧
    run argsTok { dirOk := true, entries := [fABC], writeError := some "disk full" } =
      RunResult.fatal (Fatal.writeFailure "disk full") := by
  have hd : ∀ d, argsTok.delimiter = some d → d ≠ "" := by
    intro d h
    cases h
    decide
  refine ⟨?_, ?_, ?_, ?_⟩
  · exact (C8_error_taxonomy argsTok
      { dirOk := false, entries := [], writeError := none }).1 rfl
  · exact ((C8_error_taxonomy argsTok
      { dirOk := true, entries := [], writeError := none }).2.1 rfl (by decide)).1
  · exact (C8_error_taxonomy argsTok
      { dirOk := true, entries := [], writeError := none }).2.2.2.1
      { path := ["ghost.wav"], kind := EntryKind.regularFile,
        resolvedPath := "/base/ghost.wav", statSize := none,
        mutagenLength := none, waveData := none } rfl
  · exact (C8_error_taxonomy argsTok
      { dirOk := true, entries := [fABC], writeError := some "disk full" }).2.2.2.2.2
      "disk full" rfl rfl (by decide) hd
